import Mathlib

/-!
Shallow embedding of the selector core of the go-gost/x repository:
the filter pipeline (`failFilter`, `healthCheckFilter`, `backupFilter`
from `selector/filter.go`), the selection strategies
(`selector/strategy.go`) and the health-check prober.

Modelling conventions:
* Go `time.Duration` and `int64` become `Int`; `uint64` arithmetic is
  `Nat` taken modulo `2^64` where the code relies on wraparound.
* A candidate's optional capabilities (duck-typed interface checks in
  Go) become `Option` fields of a `Candidate` structure; a `none` field
  plays the role of a failed type assertion (or a `nil` interface value,
  which the Go code treats identically).
* Randomness (`rand.Intn`) and the context hash value are passed in as
  explicit arguments; network probe outcomes are passed in as data.
-/

/-- Per-candidate failure state (go-gost `selector.Marker`): failure
`count` and the `time` of the most recent failure (as a timestamp). -/
structure Marker where
  count : Int
  time : Int
deriving DecidableEq

/-- The metadata keys the selector core reads (`max-fails`,
`fail-timeout`, `backup`, `weight`).  A `some` field means the key
exists in the candidate's metadata map and records the value the
`mdutil` getter returns for it; `none` means the key is absent. -/
structure MetadataMap where
  maxFails : Option Int
  failTimeout : Option Int
  backup : Bool
  weight : Option Int
deriving DecidableEq

/-- A generic candidate as the filters and capability-based strategies
see it.  Each field models one optional capability:
`metadata` (Metadatable, with a nil metadata map flattened to `none`),
`marker` (Markable, with a nil marker flattened to `none` — the Go code
treats both cases the same way), `activeConns` (Connectable) and
`latency` (LatencyStater). -/
structure Candidate where
  metadata : Option MetadataMap
  marker : Option Marker
  activeConns : Option Int
  latency : Option Int
deriving DecidableEq

/-- The zero value of the candidate type: no capability present
(in Go every interface field of the zero struct is nil). -/
def Candidate.zero : Candidate :=
  { metadata := none, marker := none, activeConns := none, latency := none }

instance : Inhabited Candidate := ⟨Candidate.zero⟩

/-- Modelled from the spec: the repository's `DefaultFailTimeout`
constant (not under `src/`); a fixed positive default fail timeout,
in nanoseconds.  The claims depend only on it being the fixed default,
never on its numeric value. -/
def DefaultFailTimeout : Int := 30000000000

/-- Modelled from the spec: the repository's `DefaultMaxFails`
constant (not under `src/`). -/
def DefaultMaxFails : Int := 1

/-- The loop body of `failFilter.Filter` (src/selector/filter.go:32-61):
the candidate's max-fails / fail-timeout are taken from its metadata
when the keys exist, else from the filter's configuration, non-positive
values are coerced to `1` / `DefaultFailTimeout`, and the candidate is
kept when its marker is absent, its count is below max-fails, or the
time since its last failure is at least fail-timeout. -/
def failFilter.keep (cfgMaxFails cfgFailTimeout : Int) (now : Int)
    (v : Candidate) : Bool :=
  let maxFails : Int :=
    match v.metadata with
    | some md => match md.maxFails with
      | some n => n
      | none => cfgMaxFails
    | none => cfgMaxFails
  let failTimeout : Int :=
    match v.metadata with
    | some md => match md.failTimeout with
      | some d => d
      | none => cfgFailTimeout
    | none => cfgFailTimeout
  let maxFails := if maxFails ≤ 0 then 1 else maxFails
  let failTimeout := if failTimeout ≤ 0 then DefaultFailTimeout else failTimeout
  match v.marker with
  | some marker =>
    decide (marker.count < maxFails) || decide (now - marker.time ≥ failTimeout)
  | none => true

/-- `failFilter.Filter` (src/selector/filter.go:27-64), with the per
candidate loop body factored out as `failFilter.keep`. -/
def failFilter.Filter (cfgMaxFails cfgFailTimeout : Int) (now : Int)
    (vs : List Candidate) : List Candidate :=
  if vs.length ≤ 1 then vs
  else vs.filter (failFilter.keep cfgMaxFails cfgFailTimeout now)

/-- The loop body of `healthCheckFilter.Filter`
(src/selector/filter.go:85-95): a candidate is kept when its marker is
absent or its count is below the (already coerced) max-fails; there is
no timeout-based cooldown. -/
def healthCheckFilter.keep (maxFails : Int) (v : Candidate) : Bool :=
  match v.marker with
  | some marker => decide (marker.count < maxFails)
  | none => true

/-- `healthCheckFilter.Filter` (src/selector/filter.go:76-100), with
the loop body factored out as `healthCheckFilter.keep`. -/
def healthCheckFilter.Filter (cfgMaxFails : Int) (vs : List Candidate) :
    List Candidate :=
  if vs.length ≤ 1 then vs
  else
    let maxFails := if cfgMaxFails ≤ 0 then 1 else cfgMaxFails
    let l := vs.filter (healthCheckFilter.keep maxFails)
    if l.length = 0 then vs else l

/-- Whether a candidate carries the `backup` metadata flag
(`mdutil.GetBool(mi.Metadata(), labelBackup)`; a missing Metadatable
capability or nil metadata map yields `false`). -/
def Candidate.isBackup (v : Candidate) : Bool :=
  match v.metadata with
  | some md => md.backup
  | none => false

/-- `backupFilter.Filter` (src/selector/filter.go:111-131).  Inputs of
length ≤ 1 are returned unchanged; otherwise candidates are split into
primary (`l`) and backup (`backups`) preserving order, and `l` is
returned unless it is empty, in which case `backups` is returned. -/
def backupFilter.Filter (vs : List Candidate) : List Candidate :=
  if vs.length ≤ 1 then vs
  else
    let l := vs.filter fun v => ! v.isBackup
    let backups := vs.filter fun v => v.isBackup
    if l.length = 0 then backups else l

/-! ## Strategies (src/selector/strategy.go) -/

/-- `roundRobinStrategy.Apply` (src/selector/strategy.go:37-44).
The strategy state is the `uint64` counter, kept as a `Nat` reduced
modulo `2^64` exactly as the machine word is.  On a non-empty list the
call atomically increments the counter and selects index
`(previous counter) mod len(vs)`; on an empty list it returns the zero
value and leaves the counter untouched.  Returns (selected, new
counter). -/
def roundRobinStrategy.Apply {T : Type} [Inhabited T] (counter : Nat)
    (vs : List T) : T × Nat :=
  if h : vs.length = 0 then (default, counter)
  else
    let n := counter % 2 ^ 64
    (vs.get ⟨n % vs.length, Nat.mod_lt _ (Nat.pos_of_ne_zero h)⟩,
      (counter + 1) % 2 ^ 64)

/-- The list of results of `k` consecutive `roundRobinStrategy.Apply`
calls on a fixed list `vs`, starting from counter value `counter`. -/
def rrOutputs {T : Type} [Inhabited T] (counter : Nat) (vs : List T) :
    Nat → List T
  | 0 => []
  | k + 1 =>
    let r := roundRobinStrategy.Apply counter vs
    r.1 :: rrOutputs r.2 vs k

/-- `fifoStrategy.Apply` (src/selector/strategy.go:92-97): the first
element, or the zero value on an empty list. -/
def fifoStrategy.Apply {T : Type} [Inhabited T] (vs : List T) : T :=
  if vs.length = 0 then default else vs.headD default

/-- `hashStrategy.Apply` (src/selector/strategy.go:110-124).
`hash` is the CRC32-IEEE checksum of the routing hash key carried by
the context, already computed (the checksum itself is stdlib code,
external to this repository), or `none` when the context carries no
hash; `rnd n` models `r.Intn n`. -/
def hashStrategy.Apply {T : Type} [Inhabited T] (hash : Option Nat)
    (rnd : Nat → Nat) (vs : List T) : T :=
  if vs.length = 0 then default
  else
    match hash with
    | some value => vs.getD (value % vs.length) default
    | none => vs.getD (rnd vs.length) default

/-- `math.MaxInt64`, the initial minimum in the least-conn and
least-latency scans; every Go `int64` value is ≤ this bound. -/
def maxInt64 : Int := 2 ^ 63 - 1

/-- A candidate's active connection count as the least-conn strategy
sees it: `ActiveConns()` when the candidate is Connectable, else 0. -/
def Candidate.connsOf (v : Candidate) : Int :=
  match v.activeConns with
  | some c => c
  | none => 0

/-- A candidate's latency as the least-latency strategy sees it:
`Latency()` when the candidate is a LatencyStater and the value is
positive, else `math.MaxInt64`. -/
def Candidate.latencyOf (v : Candidate) : Int :=
  match v.latency with
  | some l => if l ≤ 0 then maxInt64 else l
  | none => maxInt64

/-- One iteration of the minimum scan shared (textually duplicated in
the source) by `leastConnStrategy.Apply` and
`leastLatencyStrategy.Apply`: the accumulator is the running minimum
and the list of candidates attaining it, in input order. -/
def minScanStep (key : Candidate → Int) (acc : Int × List Candidate)
    (item : Candidate) : Int × List Candidate :=
  if key item < acc.1 then (key item, [item])
  else if key item = acc.1 then (acc.1, acc.2 ++ [item])
  else acc

/-- The `minConns`/`minLatency` scan of strategy.go:142-157 and
179-203: fold the step over the list starting from
`(math.MaxInt64, [])`, returning the candidates with minimal key. -/
def minCandidates (key : Candidate → Int) (vs : List Candidate) :
    List Candidate :=
  (vs.foldl (minScanStep key) (maxInt64, [])).2

/-- The tail of both least-X strategies (strategy.go:159-165,205-211):
the single minimal candidate if unique, else a uniform random one among
the tied candidates (`rnd n` models `r.Intn n`). -/
def minApply (key : Candidate → Int) (rnd : Nat → Nat)
    (vs : List Candidate) : Candidate :=
  if vs.length = 0 then default
  else
    let candidates := minCandidates key vs
    if candidates.length = 1 then candidates.headD default
    else candidates.getD (rnd candidates.length) default

/-- `leastConnStrategy.Apply` (src/selector/strategy.go:137-166). -/
def leastConnStrategy.Apply (rnd : Nat → Nat) (vs : List Candidate) :
    Candidate :=
  minApply Candidate.connsOf rnd vs

/-- `leastLatencyStrategy.Apply` (src/selector/strategy.go:179-212). -/
def leastLatencyStrategy.Apply (rnd : Nat → Nat) (vs : List Candidate) :
    Candidate :=
  minApply Candidate.latencyOf rnd vs

/-- Modelled from the spec: the `RandomWeighted` sampler (its source is
not under `src/`): a transient list of (item, weight) pairs; `next`
draws a value in `[0, totalWeight)` and scans to the first cumulative
bucket exceeding the draw. -/
structure RandomWeighted where
  items : List (Candidate × Int)

/-- Modelled from the spec: cumulative-sum scan of the sampler. -/
def RandomWeighted.next (rw : RandomWeighted) (draw : Int) : Candidate :=
  let rec scan : List (Candidate × Int) → Int → Candidate
    | [], _ => Candidate.zero
    | (v, w) :: rest, acc =>
      if draw < acc + w then v else scan rest (acc + w)
  scan rw.items 0

/-- A candidate's weight as the random strategy computes it
(strategy.go:68-77): metadata `weight` if present (0 when the key is
missing, as `mdutil.GetInt` returns), coerced to 1 when ≤ 0. -/
def Candidate.weightOf (v : Candidate) : Int :=
  let w : Int :=
    match v.metadata with
    | some md => match md.weight with
      | some n => n
      | none => 0
    | none => 0
  if w ≤ 0 then 1 else w

/-- `randomStrategy.Apply` (src/selector/strategy.go:59-80): zero value
on an empty list, else rebuild the weighted sampler over the list and
draw from it; `draw` stands for the sampler's uniform random value. -/
def randomStrategy.Apply (draw : Int) (vs : List Candidate) : Candidate :=
  if vs.length = 0 then default
  else
    let rw : RandomWeighted := { items := vs.map fun v => (v, v.weightOf) }
    rw.next draw

/-! ## Health checker (second source file of src/selector/strategy.go) -/

/-- `HealthChecker.checkHTTP` (strategy.go:402-431), with the network
round trip abstracted into its observable outcome: `resp = none` is a
request error or timeout, `resp = some code` a response with that
status code.  The result is `true` exactly when the Go function
returns a nil error (probe success). -/
def HealthChecker.checkHTTP (expectStatus : Int) (resp : Option Int) :
    Bool :=
  match resp with
  | none => false
  | some code =>
    if 0 < expectStatus && code ≠ expectStatus then false
    else if 200 ≤ code && code < 400 then true
    else false

/-- The data of a non-nil `*chain.Node` as `HealthChecker.check` reads
it: its address and its marker (`node.Marker()`, `none` when nil).
`chain.Node` implements `selector.Markable` through the same `Marker()`
method, so the fallback `Markable` assertion in the source resolves to
the same marker. -/
structure NodeData where
  addr : String
  marker : Option Marker
deriving DecidableEq

/-- A value handed to `HealthChecker.check`: either a `*chain.Node`
(possibly nil) or some other value, which may or may not implement
`selector.Markable` (whose `Marker()` may in turn be nil). -/
inductive CheckCandidate where
  | node (n : Option NodeData)
  | other (markable : Option (Option Marker))
deriving DecidableEq

/-- Modelled from the spec: `selector.Marker`'s mutators (go-gost/core,
not under `src/`): `Mark()` increments the count and sets the time to
now; `Reset()` sets the count to 0. -/
def Marker.mark (m : Marker) (now : Int) : Marker :=
  { count := m.count + 1, time := now }

/-- Modelled from the spec: `Marker.Reset()` sets the count to 0. -/
def Marker.reset (m : Marker) : Marker :=
  { m with count := 0 }

/-- `HealthChecker.check` (strategy.go:349-391) as a transformer of the
candidate's observable state: non-nodes, nil nodes, nodes with an empty
address and nodes without a resolvable marker are skipped unchanged;
otherwise the probe outcome `probeOk` (the dispatched
`checkTCP`/`checkHTTP` result) marks or resets the node's marker. -/
def HealthChecker.check (probeOk : Bool) (now : Int)
    (v : CheckCandidate) : CheckCandidate :=
  match v with
  | .other m => .other m
  | .node none => .node none
  | .node (some nd) =>
    if nd.addr = "" then .node (some nd)
    else
      match nd.marker with
      | none => .node (some nd)
      | some marker =>
        if probeOk then .node (some { nd with marker := some marker.reset })
        else .node (some { nd with marker := some (marker.mark now) })

/-! ## Spec-side predicates -/

/-- The claim's effective max-fails for a candidate: the filter's
configured value unless the candidate's metadata explicitly sets
`max-fails`; a non-positive effective value is replaced by 1. -/
def specEffMaxFails (cfg : Int) (v : Candidate) : Int :=
  let base :=
    match v.metadata.bind (fun md => md.maxFails) with
    | some n => n
    | none => cfg
  if base ≤ 0 then 1 else base

/-- The claim's effective fail-timeout for a candidate: the filter's
configured value unless the candidate's metadata explicitly sets
`fail-timeout`; a non-positive effective value is replaced by the
fixed default timeout. -/
def specEffFailTimeout (cfg : Int) (v : Candidate) : Int :=
  let base :=
    match v.metadata.bind (fun md => md.failTimeout) with
    | some d => d
    | none => cfg
  if base ≤ 0 then DefaultFailTimeout else base

/-- The claim's keep condition for `FailFilter`: the candidate's Marker
is absent, or `marker.count < effectiveMaxFails`, or the time elapsed
since `marker.time` is at least `effectiveFailTimeout`. -/
def failKeepSpec (cfgMaxFails cfgFailTimeout now : Int)
    (v : Candidate) : Prop :=
  v.marker = none ∨
    ∃ m, v.marker = some m ∧
      (m.count < specEffMaxFails cfgMaxFails v ∨
        now - m.time ≥ specEffFailTimeout cfgFailTimeout v)

/-! ## Theorems -/

theorem failFilter_keep_iff_spec (cfgMaxFails cfgFailTimeout now : Int)
    (v : Candidate) :
    failFilter.keep cfgMaxFails cfgFailTimeout now v = true ↔
      failKeepSpec cfgMaxFails cfgFailTimeout now v := by
  obtain ⟨md, mk, ac, lat⟩ := v
  unfold failFilter.keep failKeepSpec specEffMaxFails specEffFailTimeout
  cases mk with
  | none => simp
  | some m =>
    cases md with
    | none => simp
    | some mm =>
      obtain ⟨mf, ft, bk, w⟩ := mm
      cases mf <;> cases ft <;> simp

/-- C1: whenever FailFilter actually filters (input length at least 2),
it keeps a candidate if and only if the candidate's Marker is absent,
or `marker.count < effectiveMaxFails`, or the time elapsed since
`marker.time` is at least `effectiveFailTimeout`, where the effective
values are the filter's configured ones unless the candidate's metadata
explicitly sets `max-fails`/`fail-timeout`, and non-positive effective
values are replaced by 1 and the fixed default timeout. -/
theorem failFilter_keeps_iff (cfgMaxFails cfgFailTimeout now : Int)
    (vs : List Candidate) (h : 2 ≤ vs.length) (v : Candidate) :
    v ∈ failFilter.Filter cfgMaxFails cfgFailTimeout now vs ↔
      v ∈ vs ∧ failKeepSpec cfgMaxFails cfgFailTimeout now v := by
  unfold failFilter.Filter
  rw [if_neg (by omega)]
  rw [List.mem_filter]
  exact and_congr_right fun _ =>
    failFilter_keep_iff_spec cfgMaxFails cfgFailTimeout now v

/-- A candidate with count 3 at time 95, no metadata. -/
def sampleDead : Candidate :=
  { metadata := none, marker := some ⟨3, 95⟩, activeConns := none,
    latency := none }

/-- A candidate with count 1 at time 95, no metadata. -/
def sampleLive : Candidate :=
  { metadata := none, marker := some ⟨1, 95⟩, activeConns := none,
    latency := none }

theorem failFilter_keeps_iff_witness :
    2 ≤ ([sampleDead, sampleLive] : List Candidate).length ∧
      (sampleLive ∈ failFilter.Filter 2 10 100 [sampleDead, sampleLive] ↔
        sampleLive ∈ [sampleDead, sampleLive] ∧
          failKeepSpec 2 10 100 sampleLive) :=
  ⟨by decide, failFilter_keeps_iff 2 10 100 [sampleDead, sampleLive]
    (by decide) sampleLive⟩

theorem failFilter_eq_self_of_keep (cfgMaxFails cfgFailTimeout now : Int)
    (vs : List Candidate)
    (h : ∀ v ∈ vs, failFilter.keep cfgMaxFails cfgFailTimeout now v = true) :
    failFilter.Filter cfgMaxFails cfgFailTimeout now vs = vs := by
  unfold failFilter.Filter
  split
  · rfl
  · exact List.filter_eq_self.mpr h

theorem healthCheckFilter_eq_self_of_keep (cfgMaxFails : Int)
    (vs : List Candidate)
    (h : ∀ v ∈ vs,
      healthCheckFilter.keep (if cfgMaxFails ≤ 0 then 1 else cfgMaxFails) v
        = true) :
    healthCheckFilter.Filter cfgMaxFails vs = vs := by
  unfold healthCheckFilter.Filter
  split
  · rfl
  · rename_i hlen
    simp only [List.filter_eq_self.mpr h]
    split <;> rfl

theorem backupFilter_eq_self_of_primary (vs : List Candidate)
    (h : ∀ v ∈ vs, v.isBackup = false) :
    backupFilter.Filter vs = vs := by
  unfold backupFilter.Filter
  split
  · rfl
  · rename_i hlen
    have e : vs.filter (fun v => ! v.isBackup) = vs :=
      List.filter_eq_self.mpr fun a ha => by simp [h a ha]
    simp only [e]
    rw [if_neg (by omega)]

theorem backupFilter_eq_self_of_backup (vs : List Candidate)
    (h : ∀ v ∈ vs, v.isBackup = true) :
    backupFilter.Filter vs = vs := by
  unfold backupFilter.Filter
  split
  · rfl
  · rename_i hlen
    have e0 : vs.filter (fun v => ! v.isBackup) = [] :=
      List.filter_eq_nil_iff.mpr fun a ha => by simp [h a ha]
    have e1 : vs.filter (fun v => v.isBackup) = vs :=
      List.filter_eq_self.mpr h
    simp [e0, e1]

/-- C7: each of FailFilter, HealthCheckFilter and BackupFilter is
idempotent — with all candidate marker and metadata state held fixed
and the clock unchanged, applying the filter to its own output yields
that output again. -/
theorem filters_idempotent :
    (∀ cfgMaxFails cfgFailTimeout now vs,
      failFilter.Filter cfgMaxFails cfgFailTimeout now
          (failFilter.Filter cfgMaxFails cfgFailTimeout now vs) =
        failFilter.Filter cfgMaxFails cfgFailTimeout now vs) ∧
    (∀ cfgMaxFails vs,
      healthCheckFilter.Filter cfgMaxFails
          (healthCheckFilter.Filter cfgMaxFails vs) =
        healthCheckFilter.Filter cfgMaxFails vs) ∧
    (∀ vs, backupFilter.Filter (backupFilter.Filter vs) =
      backupFilter.Filter vs) := by
  refine ⟨fun cfgMaxFails cfgFailTimeout now vs => ?_,
    fun cfgMaxFails vs => ?_, fun vs => ?_⟩
  · by_cases h : vs.length ≤ 1
    · have e : failFilter.Filter cfgMaxFails cfgFailTimeout now vs = vs := by
        unfold failFilter.Filter; rw [if_pos h]
      rw [e]; exact e
    · have e : failFilter.Filter cfgMaxFails cfgFailTimeout now vs =
          vs.filter (failFilter.keep cfgMaxFails cfgFailTimeout now) := by
        unfold failFilter.Filter; rw [if_neg h]
      rw [e]
      exact failFilter_eq_self_of_keep _ _ _ _
        fun a ha => List.of_mem_filter ha
  · by_cases h : vs.length ≤ 1
    · have e : healthCheckFilter.Filter cfgMaxFails vs = vs := by
        unfold healthCheckFilter.Filter; rw [if_pos h]
      rw [e]; exact e
    · by_cases h0 :
        (vs.filter
          (healthCheckFilter.keep
            (if cfgMaxFails ≤ 0 then 1 else cfgMaxFails))).length = 0
      · have e : healthCheckFilter.Filter cfgMaxFails vs = vs := by
          unfold healthCheckFilter.Filter; rw [if_neg h]
          simp [h0]
        rw [e]; exact e
      · have e : healthCheckFilter.Filter cfgMaxFails vs =
            vs.filter (healthCheckFilter.keep
              (if cfgMaxFails ≤ 0 then 1 else cfgMaxFails)) := by
          unfold healthCheckFilter.Filter; rw [if_neg h]
          simp [h0]
        rw [e]
        exact healthCheckFilter_eq_self_of_keep _ _
          fun a ha => List.of_mem_filter ha
  · by_cases h : vs.length ≤ 1
    · have e : backupFilter.Filter vs = vs := by
        unfold backupFilter.Filter; rw [if_pos h]
      rw [e]; exact e
    · by_cases h0 : (vs.filter (fun v => ! v.isBackup)).length = 0
      · have e : backupFilter.Filter vs =
            vs.filter (fun v => v.isBackup) := by
          unfold backupFilter.Filter; rw [if_neg h]
          simp [h0]
        rw [e]
        exact backupFilter_eq_self_of_backup _
          fun a ha => List.of_mem_filter ha
      · have e : backupFilter.Filter vs =
            vs.filter (fun v => ! v.isBackup) := by
          unfold backupFilter.Filter; rw [if_neg h]
          simp [h0]
        rw [e]
        exact backupFilter_eq_self_of_primary _
          fun a ha => by simpa using List.of_mem_filter ha

/-- C2: HealthCheckFilter returns a non-empty list on every non-empty
input; in particular, when every candidate in an input of length at
least 2 has a Marker whose count is at least the effective max-fails,
the output equals the original input list (fail-open). -/
theorem healthCheckFilter_fail_open (cfgMaxFails : Int)
    (vs : List Candidate) (h : vs ≠ []) :
    healthCheckFilter.Filter cfgMaxFails vs ≠ [] ∧
      ((2 ≤ vs.length) →
        (∀ v ∈ vs, ∃ m, v.marker = some m ∧
          (if cfgMaxFails ≤ 0 then 1 else cfgMaxFails) ≤ m.count) →
        healthCheckFilter.Filter cfgMaxFails vs = vs) := by
  have hdrop : ∀ v ∈ vs,
      (∃ m, v.marker = some m ∧
        (if cfgMaxFails ≤ 0 then 1 else cfgMaxFails) ≤ m.count) →
      healthCheckFilter.keep (if cfgMaxFails ≤ 0 then 1 else cfgMaxFails) v
        = false := by
    intro v _ ⟨m, hm, hcount⟩
    unfold healthCheckFilter.keep
    rw [hm]
    simp only [decide_eq_false_iff_not]
    omega
  constructor
  · by_cases hlen : vs.length ≤ 1
    · unfold healthCheckFilter.Filter
      rw [if_pos hlen]
      exact h
    · by_cases h0 : (vs.filter (healthCheckFilter.keep
        (if cfgMaxFails ≤ 0 then 1 else cfgMaxFails))).length = 0
      · unfold healthCheckFilter.Filter
        rw [if_neg hlen]
        simp only [h0, if_pos]
        exact h
      · unfold healthCheckFilter.Filter
        rw [if_neg hlen]
        simp only [h0, if_false]
        intro hnil
        exact h0 (by rw [hnil]; rfl)
  · intro hlen hall
    have e : vs.filter
        (healthCheckFilter.keep (if cfgMaxFails ≤ 0 then 1 else cfgMaxFails))
        = [] :=
      List.filter_eq_nil_iff.mpr fun a ha => by
        rw [hdrop a ha (hall a ha)]; exact fun hc => nomatch hc
    unfold healthCheckFilter.Filter
    rw [if_neg (by omega)]
    simp [e]

/-- A backup-flagged candidate. -/
def sampleBackup : Candidate :=
  { metadata := some ⟨none, none, true, none⟩, marker := none,
    activeConns := none, latency := none }

/-- A second backup-flagged candidate, distinguished by a weight. -/
def sampleBackup2 : Candidate :=
  { metadata := some ⟨none, none, true, some 7⟩, marker := none,
    activeConns := none, latency := none }

theorem healthCheckFilter_fail_open_witness :
    ([sampleDead, sampleLive] : List Candidate) ≠ [] ∧
      (healthCheckFilter.Filter 1 [sampleDead, sampleLive] ≠ [] ∧
        ((2 ≤ ([sampleDead, sampleLive] : List Candidate).length) →
          (∀ v ∈ ([sampleDead, sampleLive] : List Candidate),
            ∃ m, v.marker = some m ∧
              (if (1:Int) ≤ 0 then 1 else 1) ≤ m.count) →
          healthCheckFilter.Filter 1 [sampleDead, sampleLive] =
            [sampleDead, sampleLive])) :=
  ⟨by decide, healthCheckFilter_fail_open 1 [sampleDead, sampleLive]
    (by decide)⟩

theorem list_two_le_length_of_ne {a b : Candidate} {vs : List Candidate}
    (ha : a ∈ vs) (hb : b ∈ vs) (hne : a ≠ b) : 2 ≤ vs.length := by
  match vs with
  | [] => exact absurd ha (List.not_mem_nil a)
  | [x] =>
    rw [List.mem_singleton] at ha hb
    exact absurd (ha.trans hb.symm) hne
  | x :: y :: rest => simp [List.length_cons]

/-- C3: with at least one non-backup and at least one backup candidate
in the input, BackupFilter's output is exactly the non-backup
candidates (in input order); on an input consisting only of backup
candidates, the output equals the input. -/
theorem backupFilter_primary_else_backup (vs : List Candidate) :
    ((∃ a ∈ vs, a.isBackup = false) → (∃ b ∈ vs, b.isBackup = true) →
      backupFilter.Filter vs = vs.filter fun v => ! v.isBackup) ∧
    ((∀ v ∈ vs, v.isBackup = true) → backupFilter.Filter vs = vs) := by
  constructor
  · intro ⟨a, ha, hab⟩ ⟨b, hb, hbb⟩
    have hne : a ≠ b := fun e => by rw [e, hbb] at hab; exact nomatch hab
    have hlen : 2 ≤ vs.length := list_two_le_length_of_ne ha hb hne
    have hmem : a ∈ vs.filter fun v => ! v.isBackup :=
      List.mem_filter.mpr ⟨ha, by simp [hab]⟩
    have h0 : (vs.filter fun v => ! v.isBackup).length ≠ 0 := by
      intro h0
      rw [List.length_eq_zero] at h0
      rw [h0] at hmem
      exact absurd hmem (List.not_mem_nil a)
    unfold backupFilter.Filter
    rw [if_neg (by omega)]
    simp [h0]
  · exact backupFilter_eq_self_of_backup vs

theorem backupFilter_primary_else_backup_witness :
    backupFilter.Filter [sampleLive, sampleBackup] =
      List.filter (fun v => ! v.isBackup) [sampleLive, sampleBackup] ∧
    backupFilter.Filter [sampleBackup, sampleBackup2] =
      [sampleBackup, sampleBackup2] :=
  ⟨(backupFilter_primary_else_backup [sampleLive, sampleBackup]).1
      ⟨sampleLive, by decide, by decide⟩
      ⟨sampleBackup, by decide, by decide⟩,
    (backupFilter_primary_else_backup [sampleBackup, sampleBackup2]).2
      (by decide)⟩

/-- C4 counterexample: with three candidates and the uint64 counter
starting at `2^64 - 1` (`2^64 - 1` is divisible by 3), the three
consecutive Apply calls return indices 0, 0, 1 — the candidate at
index 2 is never returned, because the counter wraps to 0 between the
first and second call.  So the claimed property fails for this
starting value of the counter. -/
theorem roundRobin_wrap_counterexample :
    rrOutputs (2 ^ 64 - 1) ([0, 1, 2] : List Nat) 3 = [0, 0, 1] ∧
      ¬ (rrOutputs (2 ^ 64 - 1) ([0, 1, 2] : List Nat) 3).Perm [0, 1, 2] := by
  constructor
  · decide
  · decide

theorem rrOutputs_no_wrap {T : Type} [Inhabited T] (vs : List T)
    (hvs : vs ≠ []) :
    ∀ (k c : Nat), c + k ≤ 2 ^ 64 →
      rrOutputs c vs k =
        (List.range k).map fun i => vs.getD ((c + i) % vs.length) default := by
  have hlen : vs.length ≠ 0 := fun h0 => hvs (List.length_eq_zero.mp h0)
  intro k
  induction k with
  | zero => intro c _; rfl
  | succ k ih =>
    intro c hc
    have hclt : c < 2 ^ 64 := by omega
    have happ : roundRobinStrategy.Apply c vs =
        (vs.getD (c % vs.length) default, (c + 1) % 2 ^ 64) := by
      unfold roundRobinStrategy.Apply
      rw [dif_neg hlen]
      simp only [Nat.mod_eq_of_lt hclt]
      rw [List.getD_eq_getElem vs default
        (Nat.mod_lt _ (Nat.pos_of_ne_zero hlen))]
      rfl
    rw [rrOutputs, happ]
    rw [List.range_succ_eq_map, List.map_cons, List.map_map]
    simp only [Nat.add_zero]
    by_cases hck : c + 1 < 2 ^ 64
    · rw [Nat.mod_eq_of_lt hck, ih (c + 1) (by omega)]
      congr 1
      refine List.map_congr_left fun i _ => ?_
      simp only [Function.comp_apply]
      have e : c + 1 + i = c + Nat.succ i := by omega
      rw [e]
    · have hk0 : k = 0 := by omega
      subst hk0
      have : (c + 1) % 2 ^ 64 = 0 := by omega
      rw [this]
      rfl

/-- C4 amended: for every fixed non-empty candidate list of length N
and every starting value `c` of the RoundRobin counter such that the N
calls do not wrap the 64-bit counter (`c + N ≤ 2^64`), N consecutive
Apply calls on that list return every candidate exactly once, in list
order, continuing from index `c mod N` — i.e. the outputs are the
rotation of the list by `c mod N`, a permutation of the list.  (At the
wraparound the property fails; see the counterexample.) -/
theorem roundRobin_cycle {T : Type} [Inhabited T] (vs : List T) (c : Nat)
    (h1 : vs ≠ []) (h2 : c + vs.length ≤ 2 ^ 64) :
    rrOutputs c vs vs.length = vs.rotate (c % vs.length) ∧
      (rrOutputs c vs vs.length).Perm vs := by
  have hlen : vs.length ≠ 0 := fun h0 => h1 (List.length_eq_zero.mp h0)
  have hpos : 0 < vs.length := Nat.pos_of_ne_zero hlen
  have hrot : rrOutputs c vs vs.length = vs.rotate (c % vs.length) := by
    rw [rrOutputs_no_wrap vs h1 vs.length c h2]
    apply List.ext_getElem
    · simp [List.length_rotate]
    · intro i hi1 hi2
      simp only [List.getElem_map, List.getElem_range]
      rw [List.getD_eq_getElem vs default (Nat.mod_lt _ hpos)]
      rw [List.getElem_rotate]
      have e : (i + c % vs.length) % vs.length = (c + i) % vs.length := by
        have h3 : (i + c % vs.length) % vs.length =
            (i + c) % vs.length :=
          Nat.ModEq.add_left i (Nat.mod_modEq c vs.length)
        rw [h3, Nat.add_comm i c]
      simp only [e]
  exact ⟨hrot, hrot ▸ vs.rotate_perm (c % vs.length)⟩

theorem roundRobin_cycle_witness :
    (([10, 20, 30] : List Nat) ≠ [] ∧ 4 + 3 ≤ 2 ^ 64) ∧
      (rrOutputs 4 ([10, 20, 30] : List Nat) 3 =
          ([10, 20, 30] : List Nat).rotate (4 % 3) ∧
        (rrOutputs 4 ([10, 20, 30] : List Nat) 3).Perm [10, 20, 30]) :=
  ⟨⟨by decide, by decide⟩, roundRobin_cycle [10, 20, 30] 4 (by decide)
    (by decide)⟩

/-- C5 counterexample: with expected status 500 configured (greater
than 0) and a response whose status code equals it, the probe still
reports failure — the claim that success holds exactly when the code
equals the configured expected status is false, because after the
equality test the code must additionally fall in the 2xx/3xx range. -/
theorem checkHTTP_expect_counterexample :
    (0:Int) < 500 ∧ HealthChecker.checkHTTP 500 (some 500) = false := by
  constructor
  · decide
  · rfl

/-- C5 amended: a request error or timeout is always a failure; a
response succeeds exactly when its status code is 2xx or 3xx and, when
an expected status greater than 0 is configured, the code moreover
equals the configured expected status. -/
theorem checkHTTP_success_iff (expectStatus : Int) (resp : Option Int) :
    HealthChecker.checkHTTP expectStatus resp = true ↔
      ∃ code, resp = some code ∧ 200 ≤ code ∧ code < 400 ∧
        (0 < expectStatus → code = expectStatus) := by
  cases resp with
  | none => simp [HealthChecker.checkHTTP]
  | some code =>
    simp only [HealthChecker.checkHTTP, Option.some.injEq]
    by_cases he : 0 < expectStatus <;> by_cases hc : code = expectStatus <;>
      simp [he, hc]

theorem minScan_invariant (key : Candidate → Int) :
    ∀ (vs : List Candidate) (m : Int) (s : List Candidate),
      (∀ v ∈ s, key v = m) →
      (vs.foldl (minScanStep key) (m, s)).1 ≤ m ∧
      (∀ v ∈ vs, (vs.foldl (minScanStep key) (m, s)).1 ≤ key v) ∧
      (∀ v ∈ (vs.foldl (minScanStep key) (m, s)).2,
        key v = (vs.foldl (minScanStep key) (m, s)).1) ∧
      (∀ v ∈ (vs.foldl (minScanStep key) (m, s)).2, v ∈ s ∨ v ∈ vs) ∧
      ((vs.foldl (minScanStep key) (m, s)).2 = [] →
        s = [] ∧ ∀ v ∈ vs, m < key v) := by
  intro vs
  induction vs with
  | nil =>
    intro m s hs
    refine ⟨le_refl m, ?_, hs, fun v hv => Or.inl hv, fun h0 => ⟨h0, ?_⟩⟩
    · intro v hv; exact absurd hv (List.not_mem_nil v)
    · intro v hv; exact absurd hv (List.not_mem_nil v)
  | cons x rest ih =>
    intro m s hs
    rw [List.foldl_cons]
    unfold minScanStep
    by_cases h1 : key x < m
    · rw [if_pos h1]
      have H := ih (key x) [x] (by simp)
      refine ⟨le_trans H.1 (le_of_lt h1), ?_, H.2.2.1, ?_, ?_⟩
      · intro v hv
        rcases List.mem_cons.mp hv with h | h
        · rw [h]; exact H.1
        · exact H.2.1 v h
      · intro v hv
        rcases H.2.2.2.1 v hv with h | h
        · exact Or.inr (List.mem_cons.mpr (Or.inl (List.mem_singleton.mp h)))
        · exact Or.inr (List.mem_cons.mpr (Or.inr h))
      · intro h0
        exact absurd (H.2.2.2.2 h0).1 (by simp)
    · rw [if_neg h1]
      by_cases h2 : key x = m
      · rw [if_pos h2]
        have hs2 : ∀ v ∈ s ++ [x], key v = m := by
          intro v hv
          rcases List.mem_append.mp hv with h | h
          · exact hs v h
          · rw [List.mem_singleton.mp h]; exact h2
        have H := ih m (s ++ [x]) hs2
        refine ⟨H.1, ?_, H.2.2.1, ?_, ?_⟩
        · intro v hv
          rcases List.mem_cons.mp hv with h | h
          · rw [h, h2]; exact H.1
          · exact H.2.1 v h
        · intro v hv
          rcases H.2.2.2.1 v hv with h | h
          · rcases List.mem_append.mp h with h | h
            · exact Or.inl h
            · exact Or.inr (List.mem_cons.mpr
                (Or.inl (List.mem_singleton.mp h)))
          · exact Or.inr (List.mem_cons.mpr (Or.inr h))
        · intro h0
          have := (H.2.2.2.2 h0).1
          exact absurd this (by simp)
      · rw [if_neg h2]
        have H := ih m s hs
        have h3 : m < key x := by
          rcases lt_trichotomy (key x) m with h | h | h
          · exact absurd h h1
          · exact absurd h h2
          · exact h
        refine ⟨H.1, ?_, H.2.2.1, ?_, ?_⟩
        · intro v hv
          rcases List.mem_cons.mp hv with h | h
          · rw [h]; exact H.1.trans (le_of_lt h3)
          · exact H.2.1 v h
        · intro v hv
          rcases H.2.2.2.1 v hv with h | h
          · exact Or.inl h
          · exact Or.inr (List.mem_cons.mpr (Or.inr h))
        · intro h0
          obtain ⟨he, hgt⟩ := H.2.2.2.2 h0
          refine ⟨he, ?_⟩
          intro v hv
          rcases List.mem_cons.mp hv with h | h
          · rw [h]; exact h3
          · exact hgt v h

theorem minCandidates_spec (key : Candidate → Int) (vs : List Candidate)
    (hvs : vs ≠ []) (hub : ∀ v ∈ vs, key v ≤ maxInt64) :
    minCandidates key vs ≠ [] ∧
      ∀ v ∈ minCandidates key vs, v ∈ vs ∧ ∀ u ∈ vs, key v ≤ key u := by
  have H := minScan_invariant key vs maxInt64 []
    (fun v hv => absurd hv (List.not_mem_nil v))
  constructor
  · intro h0
    obtain ⟨u, hu⟩ := List.exists_mem_of_ne_nil vs hvs
    have := (H.2.2.2.2 h0).2 u hu
    exact absurd (hub u hu) (not_le.mpr this)
  · intro v hv
    have hmem : v ∈ vs := by
      rcases H.2.2.2.1 v hv with h | h
      · exact absurd h (List.not_mem_nil v)
      · exact h
    refine ⟨hmem, ?_⟩
    intro u hu
    rw [H.2.2.1 v hv]
    exact H.2.1 u hu

theorem minApply_spec (key : Candidate → Int) (rnd : Nat → Nat)
    (vs : List Candidate) (hvs : vs ≠ [])
    (hrnd : ∀ n, 0 < n → rnd n < n)
    (hub : ∀ v ∈ vs, key v ≤ maxInt64) :
    minApply key rnd vs ∈ vs ∧
      ∀ u ∈ vs, key (minApply key rnd vs) ≤ key u := by
  have hspec := minCandidates_spec key vs hvs hub
  have hlen : vs.length ≠ 0 := fun h0 => hvs (List.length_eq_zero.mp h0)
  have hclen : 0 < (minCandidates key vs).length :=
    List.length_pos.mpr hspec.1
  have hres : minApply key rnd vs ∈ minCandidates key vs := by
    unfold minApply
    rw [if_neg hlen]
    by_cases h1 : (minCandidates key vs).length = 1
    · rw [if_pos h1]
      cases hc : minCandidates key vs with
      | nil => exact absurd hc hspec.1
      | cons a t => simp
    · rw [if_neg h1]
      rw [List.getD_eq_getElem _ default
        (hrnd (minCandidates key vs).length hclen)]
      exact List.getElem_mem _
  exact ⟨(hspec.2 _ hres).1, (hspec.2 _ hres).2⟩

/-- C6: LeastConn returns a candidate whose ActiveConns value (0 for
candidates not implementing Connectable) is minimal over the input
list; in particular, when exactly one candidate has ActiveConns 0 and
every other candidate has at least 1, LeastConn always returns that
candidate.  (The int64 bound on connection counts is implicit in Go.) -/
theorem leastConn_min (rnd : Nat → Nat) (vs : List Candidate)
    (hvs : vs ≠ []) (hrnd : ∀ n, 0 < n → rnd n < n)
    (hub : ∀ v ∈ vs, v.connsOf ≤ maxInt64) :
    leastConnStrategy.Apply rnd vs ∈ vs ∧
      (∀ u ∈ vs, (leastConnStrategy.Apply rnd vs).connsOf ≤ u.connsOf) ∧
      ∀ v ∈ vs, v.connsOf = 0 → (∀ u ∈ vs, u ≠ v → 1 ≤ u.connsOf) →
        leastConnStrategy.Apply rnd vs = v := by
  have h := minApply_spec Candidate.connsOf rnd vs hvs hrnd hub
  refine ⟨h.1, h.2, ?_⟩
  intro v hv hv0 hothers
  by_contra hne
  have h1 := hothers _ h.1 hne
  have h2 := h.2 v hv
  rw [hv0] at h2
  omega

/-- A candidate with three active connections. -/
def sampleConn3 : Candidate :=
  { metadata := none, marker := none, activeConns := some 3,
    latency := none }

/-- A candidate with zero active connections. -/
def sampleConn0 : Candidate :=
  { metadata := none, marker := none, activeConns := some 0,
    latency := none }

theorem leastConn_min_witness :
    (([sampleConn3, sampleConn0] : List Candidate) ≠ [] ∧
      (∀ n, 0 < n → (fun _ => 0) n < n) ∧
      (∀ v ∈ ([sampleConn3, sampleConn0] : List Candidate),
        v.connsOf ≤ maxInt64)) ∧
    (leastConnStrategy.Apply (fun _ => 0) [sampleConn3, sampleConn0] ∈
        ([sampleConn3, sampleConn0] : List Candidate) ∧
      (∀ u ∈ ([sampleConn3, sampleConn0] : List Candidate),
        (leastConnStrategy.Apply (fun _ => 0)
          [sampleConn3, sampleConn0]).connsOf ≤ u.connsOf) ∧
      ∀ v ∈ ([sampleConn3, sampleConn0] : List Candidate),
        v.connsOf = 0 →
        (∀ u ∈ ([sampleConn3, sampleConn0] : List Candidate),
          u ≠ v → 1 ≤ u.connsOf) →
        leastConnStrategy.Apply (fun _ => 0) [sampleConn3, sampleConn0]
          = v) :=
  ⟨⟨by decide, fun n h => h, by decide⟩,
    leastConn_min (fun _ => 0) [sampleConn3, sampleConn0] (by decide)
      (fun n h => h) (by decide)⟩

/-- C8: every strategy's Apply returns the zero value of the candidate
type when given an empty candidate list (RoundRobin also leaves its
counter unchanged). -/
theorem strategies_empty_zero :
    (∀ counter : Nat, roundRobinStrategy.Apply counter
      ([] : List Candidate) = (Candidate.zero, counter)) ∧
    (∀ draw : Int, randomStrategy.Apply draw [] = Candidate.zero) ∧
    fifoStrategy.Apply ([] : List Candidate) = Candidate.zero ∧
    (∀ hash rnd, hashStrategy.Apply hash rnd ([] : List Candidate) =
      Candidate.zero) ∧
    (∀ rnd, leastConnStrategy.Apply rnd [] = Candidate.zero) ∧
    (∀ rnd, leastLatencyStrategy.Apply rnd [] = Candidate.zero) :=
  ⟨fun _ => rfl, fun _ => rfl, rfl, fun _ _ => rfl, fun _ => rfl,
    fun _ => rfl⟩

/-- C9: on every non-empty input list, the RoundRobin, FIFO, Hash
(with or without a context hash), LeastConn and LeastLatency strategies
return an element of the input list.  `hrnd` states the `rand.Intn`
contract and the bounds state that connection counts and latencies are
int64 values. -/
theorem strategies_mem (vs : List Candidate) (counter : Nat)
    (value : Nat) (rnd : Nat → Nat) (hvs : vs ≠ [])
    (hrnd : ∀ n, 0 < n → rnd n < n)
    (hconn : ∀ v ∈ vs, v.connsOf ≤ maxInt64)
    (hlat : ∀ v ∈ vs, v.latencyOf ≤ maxInt64) :
    (roundRobinStrategy.Apply counter vs).1 ∈ vs ∧
    fifoStrategy.Apply vs ∈ vs ∧
    hashStrategy.Apply (some value) rnd vs ∈ vs ∧
    hashStrategy.Apply none rnd vs ∈ vs ∧
    leastConnStrategy.Apply rnd vs ∈ vs ∧
    leastLatencyStrategy.Apply rnd vs ∈ vs := by
  have hlen : vs.length ≠ 0 := fun h0 => hvs (List.length_eq_zero.mp h0)
  have hpos : 0 < vs.length := Nat.pos_of_ne_zero hlen
  refine ⟨?_, ?_, ?_, ?_, ?_, ?_⟩
  · unfold roundRobinStrategy.Apply
    rw [dif_neg hlen]
    show vs.get ⟨counter % 2 ^ 64 % vs.length,
      Nat.mod_lt _ (Nat.pos_of_ne_zero hlen)⟩ ∈ vs
    exact List.get_mem vs _ _
  · unfold fifoStrategy.Apply
    rw [if_neg hlen]
    cases vs with
    | nil => exact absurd rfl hvs
    | cons a t => exact List.mem_cons_self a t
  · unfold hashStrategy.Apply
    rw [if_neg hlen]
    show vs.getD (value % vs.length) default ∈ vs
    rw [List.getD_eq_getElem vs default (Nat.mod_lt _ hpos)]
    exact List.getElem_mem _
  · unfold hashStrategy.Apply
    rw [if_neg hlen]
    show vs.getD (rnd vs.length) default ∈ vs
    rw [List.getD_eq_getElem vs default (hrnd vs.length hpos)]
    exact List.getElem_mem _
  · exact (minApply_spec Candidate.connsOf rnd vs hvs hrnd hconn).1
  · exact (minApply_spec Candidate.latencyOf rnd vs hvs hrnd hlat).1

theorem strategies_mem_witness :
    (([sampleConn3, sampleConn0] : List Candidate) ≠ [] ∧
      (∀ n, 0 < n → (fun _ => 0) n < n) ∧
      (∀ v ∈ ([sampleConn3, sampleConn0] : List Candidate),
        v.connsOf ≤ maxInt64) ∧
      (∀ v ∈ ([sampleConn3, sampleConn0] : List Candidate),
        v.latencyOf ≤ maxInt64)) ∧
    ((roundRobinStrategy.Apply 7 [sampleConn3, sampleConn0]).1 ∈
        ([sampleConn3, sampleConn0] : List Candidate) ∧
      fifoStrategy.Apply [sampleConn3, sampleConn0] ∈
        ([sampleConn3, sampleConn0] : List Candidate) ∧
      hashStrategy.Apply (some 12345) (fun _ => 0)
          [sampleConn3, sampleConn0] ∈
        ([sampleConn3, sampleConn0] : List Candidate) ∧
      hashStrategy.Apply none (fun _ => 0) [sampleConn3, sampleConn0] ∈
        ([sampleConn3, sampleConn0] : List Candidate) ∧
      leastConnStrategy.Apply (fun _ => 0) [sampleConn3, sampleConn0] ∈
        ([sampleConn3, sampleConn0] : List Candidate) ∧
      leastLatencyStrategy.Apply (fun _ => 0) [sampleConn3, sampleConn0] ∈
        ([sampleConn3, sampleConn0] : List Candidate)) :=
  ⟨⟨by decide, fun n h => h, by decide, by decide⟩,
    strategies_mem [sampleConn3, sampleConn0] 7 12345 (fun _ => 0)
      (by decide) (fun n h => h) (by decide) (by decide)⟩

/-- The eligibility condition of the claim on `HealthChecker.check`:
the probed value is a non-nil `*chain.Node` with a non-empty address
and a resolvable non-nil Marker. -/
def CheckCandidate.eligible : CheckCandidate → Bool
  | .node (some nd) => decide (nd.addr ≠ "") && nd.marker.isSome
  | _ => false

/-- C10: `HealthChecker.check` mutates a candidate's state only when
the candidate is a non-nil `*chain.Node` with a non-empty address and
a resolvable non-nil Marker; every other candidate — including a value
that implements Markable but is not a `*chain.Node` — is skipped with
no state change of any kind. -/
theorem healthChecker_check_frame (probeOk : Bool) (now : Int)
    (v : CheckCandidate) (h : v.eligible = false) :
    HealthChecker.check probeOk now v = v := by
  cases v with
  | other m => rfl
  | node n =>
    cases n with
    | none => rfl
    | some nd =>
      simp only [HealthChecker.check]
      by_cases ha : nd.addr = ""
      · rw [if_pos ha]
      · rw [if_neg ha]
        cases hm : nd.marker with
        | none => simp only [hm]
        | some mk =>
          exfalso
          simp only [CheckCandidate.eligible] at h
          rw [hm] at h
          simp [ha] at h

theorem healthChecker_check_frame_witness :
    (CheckCandidate.other (some (some ⟨2, 7⟩))).eligible = false ∧
      HealthChecker.check false 0
          (CheckCandidate.other (some (some ⟨2, 7⟩))) =
        CheckCandidate.other (some (some ⟨2, 7⟩)) :=
  ⟨by decide, healthChecker_check_frame false 0
    (CheckCandidate.other (some (some ⟨2, 7⟩))) (by decide)⟩
